import Mathlib

/-!
Shallow embedding of the grep core in `src/main.rs`:
the pattern parser (`Matcher::parse_pattern` and its helpers) and the
matcher (`Matcher::match`, `Match::match`).

Strings are modelled as `List Char` (all inputs of interest are ASCII, where
the byte indices of Rust coincide with character indices).  Rust panics
(out-of-bounds slices, `unwrap` on `None`, `todo!`) are modelled explicitly:
the parser returns `Option` (`none` = panic) and the evaluator returns a
result type with a `panicked` constructor.  The `OneOfMore` evaluation loop
in the source can fail to terminate, so the evaluator carries a fuel
argument; `timeout` reports exhausted fuel, and genuine divergence of the
source is rendered as `timeout` for every fuel value.
-/

namespace Grep

/-- Embeds Rust `enum Class { Digit, Word }`. -/
inductive Class where
  | Digit : Class
  | Word : Class
deriving DecidableEq, Repr

/-- Embeds Rust `enum Match` (the fragment tree). -/
inductive Match where
  | Literal : List Char → Match
  | Class : Class → Match
  | PositiveGroup : List Match → Match
  | NegativeGroup : List Match → Match
  | StartOfLine : Match → Match
  | EndOfLine : Match → Match
  | OneOfMore : Match → Match
  | ZeroOrOne : Match → Match
  | AnyChar : Match
deriving Repr

/-- Embeds Rust `enum MatchResult { Match(usize), NoMatch }`. -/
inductive MatchResult where
  | matched : Nat → MatchResult
  | noMatch : MatchResult
deriving DecidableEq, Repr

/-- Embeds `impl From<bool> for MatchResult`: `true ↦ Match(1)`, `false ↦ NoMatch`. -/
def MatchResult.ofBool (b : Bool) : MatchResult :=
  if b then .matched 1 else .noMatch

/-- Outcome of one fragment evaluation: a `MatchResult`, a Rust panic, or
exhausted fuel. -/
inductive Res where
  | ok : MatchResult → Res
  | panicked : Res
  | timeout : Res
deriving DecidableEq, Repr

/-- Outcome of a whole match call: a boolean, a Rust panic, or exhausted fuel. -/
inductive BoolRes where
  | ok : Bool → BoolRes
  | panicked : BoolRes
  | timeout : BoolRes
deriving DecidableEq, Repr

/-- Embeds Rust std `char::is_ascii_digit`: `matches!(*self, '0'..='9')`. -/
def isAsciiDigit (c : Char) : Bool :=
  '0' ≤ c && c ≤ '9'

/-- Embeds Rust std `char::is_ascii_alphanumeric`:
`matches!(*self, '0'..='9' | 'A'..='Z' | 'a'..='z')`. -/
def isAsciiAlphanumeric (c : Char) : Bool :=
  ('0' ≤ c && c ≤ '9') || ('A' ≤ c && c ≤ 'Z') || ('a' ≤ c && c ≤ 'z')

/-- Embeds `Matcher::parse_positive_character_group` (main.rs lines 68-90).
Scans the remaining pattern characters: `'^'` anywhere sets the negation
flag and is not added to the group, `']'` finishes the group and returns the
unconsumed rest, any other character is appended as a one-character
`Literal` member.  If the characters run out before a `']'`, the Rust
function returns without pushing any fragment: modelled as `(none, [])`. -/
def parseGroupAux : List Char → List Match → Bool → Option Match × List Char
  | [], _, _ => (none, [])
  | c :: rest, g, neg =>
    if c = '^' then parseGroupAux rest g true
    else if c = ']' then
      (some (if neg then Match.NegativeGroup g else Match.PositiveGroup g), rest)
    else parseGroupAux rest (g ++ [Match.Literal [c]]) neg

/-- Embeds `Matcher::parse_pattern` (main.rs lines 17-56) together with
`parse_character_class` (lines 58-66), with an accumulator for the built
fragment vector.  `none` models a Rust panic (`unwrap` on `None`, `todo!`,
or the explicit `panic!` after a trailing `'\'`).  The fuel argument only
makes the recursion structural; `parse_pattern` below supplies enough fuel
that it is never exhausted. -/
def parseGo : Nat → List Char → List Match → Option (List Match)
  | 0, _, _ => none
  | _ + 1, [], acc => some acc
  | fuel + 1, c :: rest, acc =>
    if c = '\\' then
      match rest with
      | [] => none
      | c2 :: rest' =>
        if c2 = 'd' then parseGo fuel rest' (acc ++ [Match.Class Class.Digit])
        else if c2 = 'w' then parseGo fuel rest' (acc ++ [Match.Class Class.Word])
        else if c2 = '\\' then parseGo fuel rest' (acc ++ [Match.Literal ['\\']])
        else none
    else if c = '[' then
      match parseGroupAux rest [] false with
      | (some m, rest') => parseGo fuel rest' (acc ++ [m])
      | (none, rest') => parseGo fuel rest' acc
    else if c = '^' then
      match rest with
      | [] => none
      | c2 :: rest' =>
        match parseGo fuel [c2] [] with
        | none => none
        | some frags =>
          match frags.getLast? with
          | none => none
          | some m => parseGo fuel rest' (acc ++ [Match.StartOfLine m])
    else if c = '$' then
      match acc.getLast? with
      | none => none
      | some m => parseGo fuel rest (acc.dropLast ++ [Match.EndOfLine m])
    else if c = '+' then
      match acc.getLast? with
      | none => none
      | some m => parseGo fuel rest (acc.dropLast ++ [Match.OneOfMore m])
    else if c = '?' then
      match acc.getLast? with
      | none => none
      | some m => parseGo fuel rest (acc.dropLast ++ [Match.ZeroOrOne m])
    else if c = '.' then parseGo fuel rest (acc ++ [Match.AnyChar])
    else parseGo fuel rest (acc ++ [Match.Literal [c]])

/-- Embeds the parse step of `Matcher::from_pattern`: every step of `parseGo` consumes
at least one character of the remaining pattern, so `length + 1` fuel always
suffices. -/
def parse_pattern (pattern : List Char) : Option (List Match) :=
  parseGo (pattern.length + 1) pattern []

/-- Scans a list of member-evaluation results left to right, embedding
`group_fragments.iter().any(|f| f.match(..).into()).into()` from the
`PositiveGroup` arm: the first `Match(_)` short-circuits to `Match(1)`,
a panic or timeout is propagated at the point it is reached. -/
def anyRes : List Res → Res
  | [] => .ok .noMatch
  | .ok (.matched _) :: _ => .ok (.matched 1)
  | .ok .noMatch :: rs => anyRes rs
  | .panicked :: _ => .panicked
  | .timeout :: _ => .timeout

/-- Scans member-evaluation results, embedding
`group_fragments.iter().all(|f| (!f.match(..)).into()).into()` from the
`NegativeGroup` arm: the first `Match(_)` short-circuits to `NoMatch`, and
if every member yields `NoMatch` the group reports `Match(1)`. -/
def allRes : List Res → Res
  | [] => .ok (.matched 1)
  | .ok (.matched _) :: _ => .ok .noMatch
  | .ok .noMatch :: rs => allRes rs
  | .panicked :: _ => .panicked
  | .timeout :: _ => .timeout

/-- Embeds the `loop` in the `Match::OneOfMore` arm (main.rs lines 239-258):
repeatedly evaluate the wrapped fragment at `i + ml`, accumulating consumed
length `ml`; on `NoMatch`, return `NoMatch` if nothing was consumed and
`Match(ml)` otherwise.  The loop in the source has no bound, so fuel limits
the number of iterations. -/
def oneOfMoreLoop (ev : Nat → Res) (i : Nat) : Nat → Nat → Res
  | _, 0 => .timeout
  | ml, fuel + 1 =>
    match ev (i + ml) with
    | .ok (.matched k) => oneOfMoreLoop ev i (ml + k) fuel
    | .ok .noMatch => if ml = 0 then .ok .noMatch else .ok (.matched ml)
    | .panicked => .panicked
    | .timeout => .timeout

/-- Embeds `Match::match` (main.rs lines 173-270), fragment evaluation at a
cursor position.  Rust panics are modelled as `.panicked`:
the `Literal` arm slices `input_line[i..i+len]` after only checking
`input_line.len() < len`, so the slice itself panics when `i + len`
exceeds the line length; the `Class` arm unwraps the first character of
`input_line[i..]`, panicking when the cursor is at or past the end. -/
def matchFrag : Nat → Match → List Char → Nat → Res
  | 0, _, _, _ => .timeout
  | _ + 1, .Literal s, line, i =>
    if line.length < s.length then .ok .noMatch
    else if i + s.length ≤ line.length then
      if (line.drop i).take s.length = s then .ok (.matched s.length) else .ok .noMatch
    else .panicked
  | _ + 1, .Class cl, line, i =>
    match (line.drop i).head? with
    | some c =>
      .ok (MatchResult.ofBool
        (match cl with
         | .Digit => isAsciiDigit c
         | .Word => isAsciiAlphanumeric c))
    | none => .panicked
  | fuel + 1, .PositiveGroup gs, line, i =>
    anyRes (gs.map (fun g => matchFrag fuel g line i))
  | fuel + 1, .NegativeGroup gs, line, i =>
    allRes (gs.map (fun g => matchFrag fuel g line i))
  | fuel + 1, .StartOfLine f, line, i =>
    match matchFrag fuel f line i with
    | .ok (.matched k) => if i = 0 then .ok (.matched k) else .ok .noMatch
    | .ok .noMatch => .ok .noMatch
    | .panicked => .panicked
    | .timeout => .timeout
  | fuel + 1, .EndOfLine f, line, i =>
    match matchFrag fuel f line i with
    | .ok (.matched k) => if i + k = line.length then .ok (.matched k) else .ok .noMatch
    | .ok .noMatch => .ok .noMatch
    | .panicked => .panicked
    | .timeout => .timeout
  | fuel + 1, .OneOfMore f, line, i =>
    oneOfMoreLoop (fun j => matchFrag fuel f line j) i 0 fuel
  | fuel + 1, .ZeroOrOne f, line, i =>
    match matchFrag fuel f line i with
    | .ok (.matched k) => .ok (.matched k)
    | .ok .noMatch => .ok (.matched 0)
    | .panicked => .panicked
    | .timeout => .timeout
  | _ + 1, .AnyChar, _, _ => .ok (.matched 1)

/-- Embeds the top-level loop of `Matcher::match` (main.rs lines 92-121):
with fragments remaining and input left, evaluate the current fragment at
the cursor; on `Match(k)` advance to the next fragment and move the cursor
by `k`; on `NoMatch` retry the same fragment one position further right.
Success when the fragments run out, failure when the input runs out first.
The loop itself always terminates, but fragment evaluation may not, so the
fuel is threaded through. -/
def runLoop : Nat → List Char → List Match → Nat → BoolRes
  | 0, _, _, _ => .timeout
  | _ + 1, _, [], _ => .ok true
  | fuel + 1, line, f :: fs, i =>
    if i ≥ line.length then .ok false
    else
      match matchFrag (fuel + 1) f line i with
      | .ok (.matched k) => runLoop fuel line fs (i + k)
      | .ok .noMatch => runLoop fuel line (f :: fs) (i + 1)
      | .panicked => .panicked
      | .timeout => .timeout

/-- Embeds `fn match_pattern(input_line, pattern)` (main.rs lines 279-282):
parse the pattern, then run the matcher loop from cursor 0. -/
def match_pattern (fuel : Nat) (input_line pattern : List Char) : BoolRes :=
  match parse_pattern pattern with
  | some frags => runLoop fuel input_line frags 0
  | none => .panicked

/-- The characters with a dedicated arm in `parse_pattern`; every other
character parses as a one-character `Literal`. -/
def specialChars : List Char := ['\\', '[', '^', '$', '+', '?', '.']

/-- The greedy scan that the matcher loop performs on a sequence of
one-character literal fragments: advance through the line, consuming the
next pattern character whenever it equals the current line character. -/
def subseqGreedy : List Char → List Char → Bool
  | [], _ => true
  | _ :: _, [] => false
  | c :: cs, d :: ds => if d = c then subseqGreedy cs ds else subseqGreedy (c :: cs) ds

/-- When the wrapped fragment is `AnyChar`, which always reports `Match(1)`,
the `OneOfMore` loop keeps accumulating forever: every fuel bound is
exhausted, for any starting cursor and any accumulated length. -/
theorem oneOfMoreLoop_anyChar (line : List Char) (i : Nat) :
    ∀ (n fuel ml : Nat),
      oneOfMoreLoop (fun j => matchFrag fuel Match.AnyChar line j) i ml n = .timeout := by
  intro n
  induction n with
  | zero => intro fuel ml; rfl
  | succ n ih =>
    intro fuel ml
    cases fuel with
    | zero => rfl
    | succ f =>
      simp only [oneOfMoreLoop, matchFrag]
      exact ih (f + 1) (ml + 1)

/-- Claim C2 (counterexample): the pattern `colou?r` does match the line
`colouur` in this code, because after the `r` fragment fails at the first
`u` the matcher retries the same fragment one position further right
instead of restarting the pattern. -/
theorem c2_counterexample :
    match_pattern 64 (String.toList "colouur") (String.toList "colou?r") = .ok true := rfl

/-- Claim C2 (amended): `colou?r` matches `color` and `colour` as claimed,
but it also matches `colouur`; likewise `ca?t` matches `ct` as claimed but
also matches `caat`, since a failed fragment is retried at the next cursor
position without restarting the whole pattern. -/
theorem c2_theorem :
    match_pattern 64 (String.toList "color") (String.toList "colou?r") = .ok true ∧
    match_pattern 64 (String.toList "colour") (String.toList "colou?r") = .ok true ∧
    match_pattern 64 (String.toList "colouur") (String.toList "colou?r") = .ok true ∧
    match_pattern 64 (String.toList "ct") (String.toList "ca?t") = .ok true ∧
    match_pattern 64 (String.toList "caat") (String.toList "ca?t") = .ok true :=
  ⟨rfl, rfl, rfl, rfl, rfl⟩

/-- Claim C3: matching `a+` against the exact line `aaa` does not return
true; the `OneOfMore` loop evaluates the literal at cursor 3, whose slice
`input_line[3..4]` is out of bounds for the 3-byte line, so the code
panics.  (The shipped binary only avoids this because `read_line` leaves
the trailing newline on the input.) -/
theorem c3_theorem :
    parse_pattern (String.toList "a+") = some [Match.OneOfMore (Match.Literal ['a'])] ∧
    match_pattern 64 (String.toList "aaa") (String.toList "a+") = .panicked :=
  ⟨rfl, rfl⟩

/-- Claim C4: fragment evaluation can abort.  The parseable pattern `\d+`
matched against the line `5` panics: the `OneOfMore` loop evaluates the
digit class at cursor 1, where `input_line[1..].chars().next().unwrap()`
unwraps `None`. -/
theorem c4_theorem :
    parse_pattern (String.toList "\\d+") = some [Match.OneOfMore (Match.Class Class.Digit)] ∧
    match_pattern 64 (String.toList "5") (String.toList "\\d+") = .panicked :=
  ⟨rfl, rfl⟩

/-- Claim C5: matching is not always a bounded scan.  The parseable pattern
`.+` against the line `a` never terminates: `AnyChar` reports `Match(1)` at
every cursor, including past the end of the line, so the `OneOfMore` loop
accumulates forever — the run times out at every fuel bound. -/
theorem c5_theorem :
    parse_pattern (String.toList ".+") = some [Match.OneOfMore Match.AnyChar] ∧
    ∀ fuel, match_pattern fuel (String.toList "a") (String.toList ".+") = .timeout := by
  refine ⟨rfl, ?_⟩
  intro fuel
  cases fuel with
  | zero => rfl
  | succ f =>
    show runLoop (f + 1) (String.toList "a") [Match.OneOfMore Match.AnyChar] 0 = .timeout
    simp only [runLoop, matchFrag]
    rw [if_neg (by decide)]
    rw [oneOfMoreLoop_anyChar]

/-- Claim C6: an unterminated character group is not a parse error in this
code.  `parse_positive_character_group` consumes the rest of the pattern
and returns without pushing any fragment, so `[abc` parses successfully to
an empty fragment sequence — which then matches every line, here `xyz`. -/
theorem c6_theorem :
    parse_pattern (String.toList "[abc") = some [] ∧
    match_pattern 4 (String.toList "xyz") (String.toList "[abc") = .ok true :=
  ⟨rfl, rfl⟩

/-- Claim C8: the escape `\\` parses to a single-backslash `Literal`
fragment, on its own and inside a longer pattern. -/
theorem c8_theorem :
    parse_pattern (String.toList "\\\\") = some [Match.Literal ['\\']] ∧
    parse_pattern (String.toList "a\\\\b") =
      some [Match.Literal ['a'], Match.Literal ['\\'], Match.Literal ['b']] :=
  ⟨rfl, rfl⟩

/-- Claim C10: any pattern that parses to a non-empty fragment sequence
fails against the empty line, because the end-of-input check runs before
any fragment is evaluated — even a `ZeroOrOne` first fragment is never
consulted. -/
theorem c10_theorem (fuel : Nat) (pat : List Char) (frags : List Match)
    (hp : parse_pattern pat = some frags) (hne : frags ≠ []) :
    match_pattern (fuel + 1) [] pat = .ok false := by
  unfold match_pattern
  rw [hp]
  cases frags with
  | nil => exact absurd rfl hne
  | cons f fs => simp [runLoop]

/-- Witness for C10 at the pattern `a?`, whose single fragment is a
`ZeroOrOne`: it parses to a non-empty sequence and fails on the empty line. -/
theorem c10_witness :
    parse_pattern (String.toList "a?") = some [Match.ZeroOrOne (Match.Literal ['a'])] ∧
    match_pattern 1 [] (String.toList "a?") = .ok false :=
  ⟨rfl, c10_theorem 0 (String.toList "a?") [Match.ZeroOrOne (Match.Literal ['a'])] rfl (by simp)⟩

/-- Claim C7: `\d` parses to the digit class and `\w` to the word class;
at any in-bounds cursor, the digit class consumes exactly 1 character when
the character is `'0'`–`'9'` and otherwise reports `NoMatch`, and the word
class consumes exactly 1 character when the character is an ASCII letter or
digit and otherwise reports `NoMatch` — in particular `'_'` never matches
the word class. -/
theorem c7_theorem :
    parse_pattern (String.toList "\\d") = some [Match.Class Class.Digit] ∧
    parse_pattern (String.toList "\\w") = some [Match.Class Class.Word] ∧
    ∀ (fuel : Nat) (l : List Char) (i : Nat) (h : i < l.length),
      matchFrag (fuel + 1) (Match.Class Class.Digit) l i =
        .ok (if '0' ≤ l[i] ∧ l[i] ≤ '9'
             then .matched 1 else .noMatch) ∧
      matchFrag (fuel + 1) (Match.Class Class.Word) l i =
        .ok (if ('0' ≤ l[i] ∧ l[i] ≤ '9') ∨
               ('A' ≤ l[i] ∧ l[i] ≤ 'Z') ∨
               ('a' ≤ l[i] ∧ l[i] ≤ 'z')
             then .matched 1 else .noMatch) ∧
      (l[i] = '_' →
        matchFrag (fuel + 1) (Match.Class Class.Word) l i = .ok .noMatch) := by
  refine ⟨rfl, rfl, ?_⟩
  intro fuel l i h
  have hd : (l.drop i).head? = some l[i] := by
    rw [List.head?_drop, List.getElem?_eq_getElem h]
  have hof : ∀ (b : Bool) (p : Prop) [Decidable p], (b = true ↔ p) →
      MatchResult.ofBool b = if p then .matched 1 else .noMatch := by
    intro b p hdec hb
    by_cases hp : p
    · rw [if_pos hp, MatchResult.ofBool, if_pos (hb.mpr hp)]
    · rw [if_neg hp, MatchResult.ofBool, if_neg (fun hbt => hp (hb.mp hbt))]
  have hdig : matchFrag (fuel + 1) (Match.Class Class.Digit) l i =
      .ok (if '0' ≤ l[i] ∧ l[i] ≤ '9'
           then .matched 1 else .noMatch) := by
    simp only [matchFrag, hd]
    rw [hof _ ('0' ≤ l[i] ∧ l[i] ≤ '9')
      (by simp [isAsciiDigit, Bool.and_eq_true, decide_eq_true_eq])]
  have hword : matchFrag (fuel + 1) (Match.Class Class.Word) l i =
      .ok (if ('0' ≤ l[i] ∧ l[i] ≤ '9') ∨
             ('A' ≤ l[i] ∧ l[i] ≤ 'Z') ∨
             ('a' ≤ l[i] ∧ l[i] ≤ 'z')
           then .matched 1 else .noMatch) := by
    simp only [matchFrag, hd]
    rw [hof _ (('0' ≤ l[i] ∧ l[i] ≤ '9') ∨
        ('A' ≤ l[i] ∧ l[i] ≤ 'Z') ∨ ('a' ≤ l[i] ∧ l[i] ≤ 'z'))
      (by simp [isAsciiAlphanumeric, Bool.and_eq_true, Bool.or_eq_true,
        decide_eq_true_eq, or_assoc])]
  refine ⟨hdig, hword, fun hu => ?_⟩
  rw [hword, hu, if_neg (by decide)]

/-- Witness for C7 at line `a7_`, cursor 0: the lowercase letter `a`
matches the word class but not the digit class; at cursor 1 the digit `7`
matches both; at cursor 2 the underscore matches neither. -/
theorem c7_witness :
    0 < (['a', '7', '_'] : List Char).length ∧
    matchFrag 1 (Match.Class Class.Word) ['a', '7', '_'] 0 = .ok (.matched 1) ∧
    matchFrag 1 (Match.Class Class.Digit) ['a', '7', '_'] 0 = .ok .noMatch ∧
    matchFrag 1 (Match.Class Class.Digit) ['a', '7', '_'] 1 = .ok (.matched 1) ∧
    matchFrag 1 (Match.Class Class.Word) ['a', '7', '_'] 2 = .ok .noMatch := by
  have h0 := c7_theorem.2.2 0 ['a', '7', '_'] 0 (by decide)
  have h1 := c7_theorem.2.2 0 ['a', '7', '_'] 1 (by decide)
  have h2 := c7_theorem.2.2 0 ['a', '7', '_'] 2 (by decide)
  exact ⟨by decide, h0.2.1.trans (by decide), h0.1.trans (by decide),
    h1.1.trans (by decide), h2.2.2 (by decide)⟩

/-- Claim C9: full characterization of `parse_positive_character_group`.
If a `]` occurs in the remaining characters, the parse succeeds and returns
the unconsumed suffix after the first `]`; the group is negated exactly when
a `^` occurs anywhere before that `]` (or the negation flag was already
set), not only immediately after `[`; and the members are the non-`^`
characters before the `]`, as one-character literals — so `^` is never a
member of any parsed group.  With no `]` the function consumes everything
and produces no fragment. -/
theorem c9_theorem (cs : List Char) (g : List Match) (neg : Bool) :
    parseGroupAux cs g neg =
      if ']' ∈ cs then
        (some
          (if neg = true ∨ '^' ∈ cs.takeWhile (fun c => c ≠ ']') then
             Match.NegativeGroup (g ++ ((cs.takeWhile (fun c => c ≠ ']')).filter
               (fun c => c ≠ '^')).map (fun c => Match.Literal [c]))
           else
             Match.PositiveGroup (g ++ ((cs.takeWhile (fun c => c ≠ ']')).filter
               (fun c => c ≠ '^')).map (fun c => Match.Literal [c]))),
         (cs.dropWhile (fun c => c ≠ ']')).tail)
      else (none, []) := by
  induction cs generalizing g neg with
  | nil => simp [parseGroupAux]
  | cons c cs ih =>
    by_cases h1 : c = '^'
    · subst h1
      simp only [parseGroupAux, if_pos rfl, ih]
      simp [List.takeWhile_cons, List.dropWhile_cons]
    · by_cases h2 : c = ']'
      · subst h2
        simp only [parseGroupAux, if_neg h1, if_pos rfl]
        simp [List.takeWhile_cons, List.dropWhile_cons]
      · simp only [parseGroupAux, if_neg h1, if_neg h2, ih]
        simp [List.takeWhile_cons, List.dropWhile_cons, List.filter_cons, h1, h2,
          Ne.symm h1, Ne.symm h2, List.append_assoc]

/-- The greedy left-to-right scan recognizes exactly the subsequences
(`List.Sublist`) of the scanned line. -/
theorem subseqGreedy_eq_sublist : ∀ (l cs : List Char), subseqGreedy cs l = true ↔ List.Sublist cs l := by
  intro l
  induction l with
  | nil =>
    intro cs
    cases cs with
    | nil => simp [subseqGreedy]
    | cons c cs => simp [subseqGreedy]
  | cons d l ih =>
    intro cs
    cases cs with
    | nil => simp [subseqGreedy, List.nil_sublist]
    | cons c cs =>
      rw [subseqGreedy]
      by_cases h : d = c
      · subst h
        rw [if_pos rfl, ih]
        exact ⟨fun hs => hs.cons₂ d, fun hs => List.cons_sublist_cons.mp hs⟩
      · rw [if_neg h, ih]
        constructor
        · exact fun hs => hs.cons d
        · intro hs
          cases hs with
          | cons _ hs => exact hs
          | cons₂ => exact absurd rfl h

/-- A pattern of plain literal characters (no character with a dedicated
parser arm) parses to the matching sequence of one-character `Literal`
fragments, appended to the accumulator. -/
theorem parseGo_literals :
    ∀ (fuel : Nat) (cs : List Char) (acc : List Match),
      cs.length < fuel → (∀ c ∈ cs, c ∉ specialChars) →
      parseGo fuel cs acc = some (acc ++ cs.map (fun c => Match.Literal [c])) := by
  intro fuel
  induction fuel with
  | zero => intro cs acc h _; exact absurd h (Nat.not_lt_zero _)
  | succ fuel ih =>
    intro cs acc hlen hsp
    cases cs with
    | nil => simp [parseGo]
    | cons c cs =>
      have hc := hsp c (List.mem_cons_self c cs)
      simp only [specialChars, List.mem_cons, List.mem_singleton, not_or] at hc
      obtain ⟨hb, hl, hh, hd, hp, hq, hdot, -⟩ := hc
      simp only [parseGo]
      rw [if_neg hb, if_neg hl, if_neg hh, if_neg hd, if_neg hp, if_neg hq, if_neg hdot]
      rw [ih cs (acc ++ [Match.Literal [c]]) (by simpa using Nat.lt_of_succ_lt_succ hlen)
        (fun x hx => hsp x (List.mem_cons_of_mem c hx))]
      simp

/-- On a sequence of one-character literal fragments, the matcher loop
performs exactly the greedy scan `subseqGreedy` over the rest of the line:
a literal that matches advances both cursors, a literal that fails advances
only the input cursor. -/
theorem runLoop_literals :
    ∀ (fuel : Nat) (cs : List Char) (i : Nat) (l : List Char),
      i ≤ l.length → cs.length + (l.length - i) < fuel →
      runLoop fuel l (cs.map (fun c => Match.Literal [c])) i =
        .ok (subseqGreedy cs (l.drop i)) := by
  intro fuel
  induction fuel with
  | zero => intro cs i l _ hf; exact absurd hf (Nat.not_lt_zero _)
  | succ fuel ih =>
    intro cs i l hi hf
    cases cs with
    | nil => simp [runLoop, subseqGreedy]
    | cons c cs =>
      rw [List.map_cons]
      by_cases hend : i ≥ l.length
      · simp only [runLoop]
        rw [if_pos hend, List.drop_eq_nil_of_le hend]
        rfl
      · push_neg at hend
        have hdrop : l.drop i = l[i] :: l.drop (i + 1) := List.drop_eq_getElem_cons hend
        have htake : (l.drop i).take ([c] : List Char).length = [l[i]] := by
          rw [hdrop]; rfl
        simp only [runLoop, matchFrag]
        rw [if_neg (by omega : ¬ i ≥ l.length),
          if_neg (by rw [List.length_singleton]; omega : ¬ l.length < ([c] : List Char).length),
          if_pos (by rw [List.length_singleton]; omega : i + ([c] : List Char).length ≤ l.length), htake]
        rw [hdrop]
        simp only [subseqGreedy]
        by_cases hc : l[i] = c
        · rw [if_pos (by rw [hc]), if_pos hc, List.length_singleton]
          exact ih cs (i + 1) l (by omega)
            (by have hg : cs.length + 1 + (l.length - i) < fuel + 1 := by simpa using hf
                omega)
        · rw [if_neg (by simpa using hc), if_neg hc]
          have := ih (c :: cs) (i + 1) l (by omega)
            (by have hg : cs.length + 1 + (l.length - i) < fuel + 1 := by simpa using hf
                simp only [List.length_cons]
                omega)
          rw [List.map_cons] at this
          exact this

/-- Claim C1 (counterexample): the literal-only pattern `ab` matches the
line `acb` even though `ab` is not a contiguous substring of `acb`: after
the `a` fragment matches at position 0 and the `b` fragment fails at
position 1, the loop retries `b` at position 2 without restarting the
pattern. -/
theorem c1_counterexample :
    match_pattern 16 (String.toList "acb") (String.toList "ab") = .ok true ∧
    ¬ (String.toList "ab" <:+: String.toList "acb") :=
  ⟨rfl, by decide⟩

/-- Claim C1 (amended): for a pattern made only of plain literal characters
and any line, `match_pattern` returns true exactly when the pattern
characters occur in the line in order, possibly with gaps — i.e. when the
pattern is a subsequence (`List.Sublist`) of the line, not necessarily a
contiguous substring. -/
theorem c1_theorem (fuel : Nat) (pat l : List Char)
    (hpat : ∀ c ∈ pat, c ∉ specialChars)
    (hfuel : pat.length + l.length < fuel) :
    match_pattern fuel l pat = .ok true ↔ List.Sublist pat l := by
  unfold match_pattern parse_pattern
  rw [parseGo_literals (pat.length + 1) pat [] (Nat.lt_succ_self _) hpat]
  show runLoop fuel l (List.map (fun c => Match.Literal [c]) pat) 0 = .ok true ↔ List.Sublist pat l
  rw [runLoop_literals fuel pat 0 l (Nat.zero_le _) (by simpa using hfuel), List.drop_zero]
  simp only [BoolRes.ok.injEq]
  exact subseqGreedy_eq_sublist l pat

/-- Witness for the amended C1 at pattern `ab` and line `acb`: the
hypotheses hold concretely and both sides of the equivalence are true. -/
theorem c1_witness :
    (∀ c ∈ String.toList "ab", c ∉ specialChars) ∧
    (String.toList "ab").length + (String.toList "acb").length < 16 ∧
    (match_pattern 16 (String.toList "acb") (String.toList "ab") = .ok true ↔
      List.Sublist (String.toList "ab") (String.toList "acb")) :=
  ⟨by decide, by decide, c1_theorem 16 (String.toList "ab") (String.toList "acb")
    (by decide) (by decide)⟩

end Grep
